import Mathlib

/-!
Verification of the key-filtering SAX event handler of `gq.cc`.

The core of the program is `FilterKeyHandler`: a RapidJSON SAX handler that
sits between the parser and a downstream handler and suppresses every object
member whose key equals a configured byte string, together with the whole
subtree of its value, renumbering the member counts of enclosing objects.

We embed the handler shallowly: its mutable state (`filterValueDepth_` and
the stack `filteredKeyCount_`) becomes an explicit state record, each SAX
callback becomes one case of a step function, and the downstream handler is
represented by the boolean response it gives to each forwarded call.
-/

namespace GQ

/-- SAX events, one per callback of the RapidJSON `Handler` concept as used
in `gq.cc`.  Text spans (`const Ch*` plus `SizeType`) are byte lists; the
`copy` flag is carried through unchanged.  `Double` carries the 64 bits of
the value as an opaque pattern: the handler never inspects a double, it only
forwards it, so no floating-point semantics is needed. -/
inductive Event where
  | Null : Event
  | Bool (b : Bool) : Event
  | Int (i : Int) : Event
  | Uint (u : Nat) : Event
  | Int64 (i : Int) : Event
  | Uint64 (u : Nat) : Event
  | Double (bits : Nat) : Event
  | RawNumber (s : List Nat) (copy : Bool) : Event
  | String (s : List Nat) (copy : Bool) : Event
  | StartObject : Event
  | Key (s : List Nat) (copy : Bool) : Event
  | EndObject (memberCount : Nat) : Event
  | StartArray : Event
  | EndArray (elementCount : Nat) : Event
deriving DecidableEq, Repr

/-- The mutable state of `FilterKeyHandler`: `filterValueDepth_` (an
unsigned counter, 0 = not suppressing) and `filteredKeyCount_` (a
`std::stack<SizeType>` of per-object member counters, head = top). -/
structure FKState where
  filterValueDepth : Nat
  filteredKeyCount : List Nat
deriving DecidableEq, Repr

/-- `FilterKeyHandler::EndValue` as a transformation of `filterValueDepth_`:
reset 1 to 0, leave anything else unchanged.  (The C++ method also returns
`true`, which is inlined at the call sites below.) -/
def endValue (d : Nat) : Nat := if d = 1 then 0 else d

/-- `++filteredKeyCount_.top()` on the stack rendered as a list (head is the
top).  `top()` on an empty stack is undefined behaviour in C++; the `[]`
case is arbitrary and is shown unreachable on well-formed streams. -/
def incTop : List Nat → List Nat
  | [] => []
  | c :: rest => (c + 1) :: rest

/-- Result of one SAX callback of the filtering handler: the boolean
returned to the parser, the call made to the downstream handler (if any),
and the handler state afterwards. -/
structure StepResult where
  ret : Bool
  emitted : Option Event
  state : FKState
deriving DecidableEq, Repr

/-- One SAX callback of `FilterKeyHandler`.  `keyString` is the configured
filter key; `out e` is the boolean the downstream handler returns when the
call `e` is made to it (the handler calls downstream at most once per
event, so a response function is a faithful rendering of `outputHandler_`).
The nine scalar callbacks (`Null`, `Bool`, `Int`, `Uint`, `Int64`,
`Uint64`, `Double`, `RawNumber`, `String`) are textually identical in the
C++ up to the downstream method invoked and are covered by the final
catch-all case.  Short-circuiting of `&& EndValue()` is rendered exactly:
on a downstream `false` the `EndValue` update does not run. -/
def handle (keyString : List Nat) (out : Event → Bool) (s : FKState) :
    Event → StepResult
  | .StartObject =>
    if 0 < s.filterValueDepth then
      ⟨true, none, { s with filterValueDepth := s.filterValueDepth + 1 }⟩
    else
      ⟨out .StartObject, some .StartObject,
        { s with filteredKeyCount := 0 :: s.filteredKeyCount }⟩
  | .Key str c =>
    if 0 < s.filterValueDepth then
      ⟨true, none, s⟩
    else if str = keyString then
      ⟨true, none, { s with filterValueDepth := 1 }⟩
    else
      ⟨out (.Key str c), some (.Key str c),
        { s with filteredKeyCount := incTop s.filteredKeyCount }⟩
  | .EndObject _ =>
    if 0 < s.filterValueDepth then
      ⟨true, none,
        { s with filterValueDepth := endValue (s.filterValueDepth - 1) }⟩
    else
      -- the forwarded memberCount is taken from the top of the stack, the
      -- upstream count is discarded; `top()`/`pop()` on an empty stack is
      -- UB in C++, modelled by `headD 0`/`tail`
      if out (.EndObject (s.filteredKeyCount.headD 0)) then
        ⟨true, some (.EndObject (s.filteredKeyCount.headD 0)),
          { filterValueDepth := endValue s.filterValueDepth,
            filteredKeyCount := s.filteredKeyCount.tail }⟩
      else
        ⟨false, some (.EndObject (s.filteredKeyCount.headD 0)),
          { s with filteredKeyCount := s.filteredKeyCount.tail }⟩
  | .StartArray =>
    if 0 < s.filterValueDepth then
      ⟨true, none, { s with filterValueDepth := s.filterValueDepth + 1 }⟩
    else
      ⟨out .StartArray, some .StartArray, s⟩
  | .EndArray n =>
    if 0 < s.filterValueDepth then
      ⟨true, none,
        { s with filterValueDepth := endValue (s.filterValueDepth - 1) }⟩
    else if out (.EndArray n) then
      ⟨true, some (.EndArray n),
        { s with filterValueDepth := endValue s.filterValueDepth }⟩
    else
      ⟨false, some (.EndArray n), s⟩
  | e =>
    -- the nine scalar callbacks
    if 0 < s.filterValueDepth then
      ⟨true, none, { s with filterValueDepth := endValue s.filterValueDepth }⟩
    else if out e then
      ⟨true, some e, { s with filterValueDepth := endValue s.filterValueDepth }⟩
    else
      ⟨false, some e, s⟩

/-- Drive the handler over an event list with a downstream handler that
accepts every call; collect the events forwarded downstream and the final
handler state. -/
def runAll (keyString : List Nat) : FKState → List Event → List Event × FKState
  | s, [] => ([], s)
  | s, e :: es =>
    let r := handle keyString (fun _ => true) s e
    let p := runAll keyString r.state es
    (r.emitted.toList ++ p.1, p.2)

/-- Drive the handler with a downstream handler `consume` that may reject a
call.  Per RapidJSON's SAX contract the parser aborts as soon as a callback
returns `false`, so processing stops at the first `false`.  Returns the
overall success flag, the calls made downstream, and the final handler
state. -/
def runCons (keyString : List Nat) (consume : Event → Bool) :
    FKState → List Event → Bool × List Event × FKState
  | s, [] => (true, [], s)
  | s, e :: es =>
    let r := handle keyString consume s e
    if r.ret then
      let p := runCons keyString consume r.state es
      (p.1, r.emitted.toList ++ p.2.1, p.2.2)
    else
      (false, r.emitted.toList, r.state)

/-- The unguarded stack accesses the C++ performs: `top()` in the
non-suppressing `Key` branch after a failed key match, and `top()`/`pop()`
in the non-suppressing `EndObject` branch.  `stepOK` is true when the event
does not reach such an access with an empty stack. -/
def stepOK (keyString : List Nat) (s : FKState) : Event → Bool
  | .Key str _ =>
    if 0 < s.filterValueDepth then true
    else if str = keyString then true
    else !s.filteredKeyCount.isEmpty
  | .EndObject _ =>
    if 0 < s.filterValueDepth then true
    else !s.filteredKeyCount.isEmpty
  | _ => true

/-- Instrumented run with an always-accepting downstream handler: alongside
the handler state it tracks `nOpen`, the number of `StartObject` calls
forwarded minus the number of `EndObject` calls forwarded (that is, the
currently-open forwarded objects), and checks after every event that the
member-count stack has exactly `nOpen` entries and that no unguarded stack
access happened on an empty stack. -/
def invRun (keyString : List Nat) : Nat → FKState → List Event → Bool × Nat × FKState
  | n, s, [] => (true, n, s)
  | n, s, e :: es =>
    let r := handle keyString (fun _ => true) s e
    let n' := match r.emitted with
      | some .StartObject => n + 1
      | some (.EndObject _) => n - 1
      | _ => n
    let ok := stepOK keyString s e && (r.state.filteredKeyCount.length == n')
    let p := invRun keyString n' r.state es
    (ok && p.1, p.2.1, p.2.2)

mutual
/-- Documents: the values whose RapidJSON SAX event streams are the
well-formed inputs of the handler (the parser emits exactly one such stream
per document, with true member and element counts).  Scalar constructors
mirror the scalar events; members and elements are the mutually defined
lists so the event stream is definable by structural recursion. -/
inductive JValue where
  | Null : JValue
  | Bool (b : Bool) : JValue
  | Int (i : Int) : JValue
  | Uint (u : Nat) : JValue
  | Int64 (i : Int) : JValue
  | Uint64 (u : Nat) : JValue
  | Double (bits : Nat) : JValue
  | RawNumber (s : List Nat) (copy : Bool) : JValue
  | String (s : List Nat) (copy : Bool) : JValue
  | Obj (ms : JMembers) : JValue
  | Arr (es : JElems) : JValue

/-- Object member lists: key bytes, `copy` flag of the key event, value. -/
inductive JMembers where
  | nil : JMembers
  | cons (k : List Nat) (copy : Bool) (v : JValue) (rest : JMembers) : JMembers

/-- Array element lists. -/
inductive JElems where
  | nil : JElems
  | cons (v : JValue) (rest : JElems) : JElems
end

deriving instance DecidableEq for JValue
deriving instance Repr for JValue

/-- Number of members of an object. -/
def countM : JMembers → Nat
  | .nil => 0
  | .cons _ _ _ rest => countM rest + 1

/-- Number of elements of an array. -/
def countE : JElems → Nat
  | .nil => 0
  | .cons _ rest => countE rest + 1

mutual
/-- The SAX event stream of a document: exactly the sequence of callbacks
RapidJSON's parser makes for it, with `EndObject`/`EndArray` carrying the
true member and element counts. -/
def events : JValue → List Event
  | .Null => [.Null]
  | .Bool b => [.Bool b]
  | .Int i => [.Int i]
  | .Uint u => [.Uint u]
  | .Int64 i => [.Int64 i]
  | .Uint64 u => [.Uint64 u]
  | .Double bits => [.Double bits]
  | .RawNumber s c => [.RawNumber s c]
  | .String s c => [.String s c]
  | .Obj ms => Event.StartObject :: (eventsM ms ++ [Event.EndObject (countM ms)])
  | .Arr es => Event.StartArray :: (eventsE es ++ [Event.EndArray (countE es)])

/-- Event stream of an object's member list. -/
def eventsM : JMembers → List Event
  | .nil => []
  | .cons k c v rest => Event.Key k c :: (events v ++ eventsM rest)

/-- Event stream of an array's element list. -/
def eventsE : JElems → List Event
  | .nil => []
  | .cons v rest => events v ++ eventsE rest
end

mutual
/-- The document-level effect of the handler: remove, at every depth, each
member whose key equals `keyString` (together with its whole value).  Used
to characterise the forwarded stream of `runAll`. -/
def filterJ (keyString : List Nat) : JValue → JValue
  | .Obj ms => .Obj (filterM keyString ms)
  | .Arr es => .Arr (filterE keyString es)
  | v => v

/-- `filterJ` on member lists: matching members are dropped wholesale. -/
def filterM (keyString : List Nat) : JMembers → JMembers
  | .nil => .nil
  | .cons k c v rest =>
    if k = keyString then filterM keyString rest
    else .cons k c (filterJ keyString v) (filterM keyString rest)

/-- `filterJ` on element lists. -/
def filterE (keyString : List Nat) : JElems → JElems
  | .nil => .nil
  | .cons v rest => .cons (filterJ keyString v) (filterE keyString rest)
end

/-- Number of members of an object whose key does not match the filter key
(the count the handler accumulates in the top stack entry). -/
def keptM (keyString : List Nat) : JMembers → Nat
  | .nil => 0
  | .cons k _ _ rest => (if k = keyString then 0 else 1) + keptM keyString rest

mutual
/-- Whether the document contains, at any depth, a member key equal to
`keyString` (i.e. whether its event stream contains a matching `Key`
event). -/
def hasKey (keyString : List Nat) : JValue → Bool
  | .Obj ms => hasKeyM keyString ms
  | .Arr es => hasKeyE keyString es
  | _ => false

/-- `hasKey` on member lists. -/
def hasKeyM (keyString : List Nat) : JMembers → Bool
  | .nil => false
  | .cons k _ v rest =>
    decide (k = keyString) || hasKey keyString v || hasKeyM keyString rest

/-- `hasKey` on element lists. -/
def hasKeyE (keyString : List Nat) : JElems → Bool
  | .nil => false
  | .cons v rest => hasKey keyString v || hasKeyE keyString rest
end

/-- Count the `Key` events sitting at container-nesting depth 0 of an event
list (the keys of the object whose body the list is, as opposed to keys of
nested containers). -/
def topKeys : Nat → List Event → Nat
  | _, [] => 0
  | d, .Key _ _ :: es => (if d = 0 then 1 else 0) + topKeys d es
  | d, .StartObject :: es => topKeys (d + 1) es
  | d, .StartArray :: es => topKeys (d + 1) es
  | d, .EndObject _ :: es => topKeys (d - 1) es
  | d, .EndArray _ :: es => topKeys (d - 1) es
  | d, _ :: es => topKeys d es

/-- Events that complete exactly one document value: the nine scalar events
and the two container-closing events (`StartObject`, `StartArray` and `Key`
do not complete a value). -/
def completesValue : Event → Bool
  | .StartObject => false
  | .StartArray => false
  | .Key _ _ => false
  | _ => true

/-- The two container-closing events, which decrement `filterValueDepth_`
before the end-of-value rule runs when the handler is suppressing. -/
def isContainerEnd : Event → Bool
  | .EndObject _ => true
  | .EndArray _ => true
  | _ => false

/-- The bytes of the string literal "coordinates" built in `main`
(`string key("coordinates")`). -/
def coordinatesKey : List Nat := [99, 111, 111, 114, 100, 105, 110, 97, 116, 101, 115]

/-- The value `{"coordinates":"deep"}` ("deep" = bytes [100,101,101,112]). -/
def innerMostDoc : JValue :=
  .Obj (.cons coordinatesKey true (.String [100, 101, 101, 112] true) .nil)

/-- The value `[1,2,{"coordinates":"deep"}]`. -/
def yArrDoc : JValue :=
  .Arr (.cons (.Uint 1) (.cons (.Uint 2) (.cons innerMostDoc .nil)))

/-- The value `{"x":1,"y":[1,2,{"coordinates":"deep"}]}` ("x" = [120],
"y" = [121]). -/
def coordValDoc : JValue :=
  .Obj (.cons [120] true (.Uint 1) (.cons [121] true yArrDoc .nil))

/-- The document `{"a":{"coordinates":{"x":1,"y":[1,2,{"coordinates":"deep"}]},"b":2}}`
("a" = [97], "b" = [98]). -/
def nestedDoc : JValue :=
  .Obj (.cons [97] true
    (.Obj (.cons coordinatesKey true coordValDoc (.cons [98] true (.Uint 2) .nil)))
    .nil)

/-- The document `{"a":{"b":2}}`. -/
def nestedDocFiltered : JValue :=
  .Obj (.cons [97] true (.Obj (.cons [98] true (.Uint 2) .nil)) .nil)

/-! ### The CLI (`main`, lines 153-224)

`main` takes one positional argument, parses the file through the filter
into a `Document`, and then walks `document["features"]` collecting
statistics, with `ASSERT` macros (which print and `exit(EXIT_FAILURE)`)
guarding the shape of each feature.  We model the exit code with the I/O
and parsing abstracted to their outcomes; RapidJSON precondition violations
(`operator[]` on a missing member, `GetArray`/`GetObject`/`HasMember` on a
value of the wrong type), which abort via `RAPIDJSON_ASSERT`, are modelled
as `none` (undefined), while the in-file `ASSERT` failures exit with 1. -/

/-- Bytes of "features". -/
def featuresBytes : List Nat := [102, 101, 97, 116, 117, 114, 101, 115]

/-- Bytes of "geometry". -/
def geometryBytes : List Nat := [103, 101, 111, 109, 101, 116, 114, 121]

/-- Bytes of "type". -/
def typeBytes : List Nat := [116, 121, 112, 101]

/-- Bytes of "properties". -/
def propertiesBytes : List Nat := [112, 114, 111, 112, 101, 114, 116, 105, 101, 115]

/-- First member of a member list with the given key bytes (RapidJSON's
`FindMember` order). -/
def getMemberM : JMembers → List Nat → Option JValue
  | .nil, _ => none
  | .cons k _ v rest, name => if k = name then some v else getMemberM rest name

/-- RapidJSON member lookup on a document value: the first matching member
when the value is an object and the member exists; `none` collapses the
undefined cases (`operator[]`/`HasMember` on a non-object, missing member
for `operator[]`). -/
def getMember : JValue → List Nat → Option JValue
  | .Obj ms, name => getMemberM ms name
  | _, _ => none

/-- RapidJSON `IsObject`. -/
def isObj : JValue → Bool
  | .Obj _ => true
  | _ => false

/-- RapidJSON `IsString` (a populated document stores strings as the
`String` kind; `RawNumber` events only arise under a parse flag `main` does
not use). -/
def isStringVal : JValue → Bool
  | .String _ _ => true
  | _ => false

/-- Outcome of the stats-loop body for one element of the `features`
array: `exit1` when an in-file `ASSERT` fails (it prints and
`exit(EXIT_FAILURE)`), `notDefined` when a RapidJSON precondition assert is
violated, `pass` otherwise. -/
inductive FeatureCheck where
  | pass : FeatureCheck
  | exit1 : FeatureCheck
  | notDefined : FeatureCheck
deriving DecidableEq, Repr

/-- Body of the stats loop of `main` (lines 186-201) for one feature, in
source order: `ASSERT(feature.HasMember("geometry"))` (undefined if the
feature is not an object), fetch `geometry`, `ASSERT(geometry.IsObject())`,
`ASSERT(geometry.HasMember("type"))`, `ASSERT(type.IsString())`; then, when
`properties` is present, `GetObject()` requires it to be an object. -/
def checkFeature (feature : JValue) : FeatureCheck :=
  if isObj feature then
    match getMember feature geometryBytes with
    | none => .exit1
    | some geometry =>
      if isObj geometry then
        match getMember geometry typeBytes with
        | none => .exit1
        | some ty =>
          if isStringVal ty then
            match getMember feature propertiesBytes with
            | none => .pass
            | some props => if isObj props then .pass else .notDefined
          else .exit1
      else .exit1
  else .notDefined

/-- The stats loop over the elements of the `features` array: the first
non-passing feature decides the outcome (an `ASSERT` failure exits at
once). -/
def checkFeatures : JElems → FeatureCheck
  | .nil => .pass
  | .cons f rest =>
    match checkFeature f with
    | .pass => checkFeatures rest
    | r => r

/-- Outcome of `reader.GetParseResult()`: on failure a byte offset and an
error code; on success the document populated through the filter. -/
inductive ParseOutcome where
  | failure (offset : Nat) (code : Nat) : ParseOutcome
  | success (doc : JValue) : ParseOutcome
deriving DecidableEq, Repr

/-- Exit code of `main` (lines 153-224): `argc` the argument count,
`openOk` whether `fopen` succeeded, `pr` the parse outcome.  `none` models
undefined behaviour via a RapidJSON precondition assert
(`document["features"]` missing or the document not an object, `GetArray()`
on a non-array, and the `notDefined` cases of `checkFeature`). -/
def mainModel (argc : Nat) (openOk : Bool) (pr : ParseOutcome) : Option Nat :=
  if argc ≠ 2 then some 1
  else if !openOk then some 1
  else
    match pr with
    | .failure _ _ => some 1
    | .success doc =>
      match getMember doc featuresBytes with
      | none => none
      | some fs =>
        match fs with
        | .Arr elems =>
          match checkFeatures elems with
          | .pass => some 0
          | .exit1 => some 1
          | .notDefined => none
        | _ => none

/-- Specification-style predicate: a feature that passes every assertion of
the stats loop (an object with an object `geometry` member having a string
`type`, and whose `properties` member, when present, is an object). -/
def goodFeature (f : JValue) : Bool :=
  isObj f &&
  (match getMember f geometryBytes with
   | some g =>
     isObj g &&
     (match getMember g typeBytes with
      | some t => isStringVal t
      | none => false)
   | none => false) &&
  (match getMember f propertiesBytes with
   | some p => isObj p
   | none => true)

/-- `goodFeature` over the whole `features` array. -/
def goodFeatures : JElems → Bool
  | .nil => true
  | .cons f rest => goodFeature f && goodFeatures rest

/-- The filter key `main` passes to `FilterKeyReader` (lines 169-171): the
literal `"coordinates"`, built without reference to the command line
(`argv` is only used for the input path). -/
def usedFilterKey (_argv : List (List Nat)) : List Nat := coordinatesKey

/-! ### Generic lemmas about the run functions -/

theorem runAll_append (keyString : List Nat) (s : FKState) (a b : List Event) :
    runAll keyString s (a ++ b) =
      ((runAll keyString s a).1 ++ (runAll keyString (runAll keyString s a).2 b).1,
        (runAll keyString (runAll keyString s a).2 b).2) := by
  induction a generalizing s with
  | nil => simp [runAll]
  | cons e es ih => simp [runAll, ih]

/-! ### Behaviour inside a suppressed subtree -/

mutual
/-- While suppressing (depth ≥ 1), consuming the events of one whole value
makes no downstream call, leaves the stack untouched, and applies the
end-of-value rule to the depth. -/
theorem runAll_suppressed (keyString : List Nat) (v : JValue) (d : Nat)
    (stk : List Nat) (hd : 1 ≤ d) :
    runAll keyString ⟨d, stk⟩ (events v) = ([], ⟨endValue d, stk⟩) := by
  have h0 : 0 < d := hd
  cases v
  case Obj ms =>
    have h2 : 2 ≤ d + 1 := by omega
    simp only [events, runAll, handle, h0, if_true, runAll_append]
    rw [runAllM_suppressed keyString ms (d + 1) stk h2]
    simp [runAll, handle, endValue]
  case Arr es =>
    have h2 : 2 ≤ d + 1 := by omega
    simp only [events, runAll, handle, h0, if_true, runAll_append]
    rw [runAllE_suppressed keyString es (d + 1) stk h2]
    simp [runAll, handle, endValue]
  all_goals simp [events, runAll, handle, h0]

/-- While suppressing at depth ≥ 2, a member list is consumed with no
downstream call and no state change (every member value starts and ends at
depth ≥ 2, where the end-of-value rule is the identity). -/
theorem runAllM_suppressed (keyString : List Nat) (ms : JMembers) (d : Nat)
    (stk : List Nat) (hd : 2 ≤ d) :
    runAll keyString ⟨d, stk⟩ (eventsM ms) = ([], ⟨d, stk⟩) := by
  have h0 : 0 < d := by omega
  cases ms
  case nil => simp [eventsM, runAll]
  case cons k c v rest =>
    have hev : endValue d = d := by simp [endValue]; omega
    simp only [eventsM, runAll, handle, h0, if_true, runAll_append]
    rw [runAll_suppressed keyString v d stk (by omega), hev,
      runAllM_suppressed keyString rest d stk hd]
    simp

/-- While suppressing at depth ≥ 2, an element list is consumed with no
downstream call and no state change. -/
theorem runAllE_suppressed (keyString : List Nat) (es : JElems) (d : Nat)
    (stk : List Nat) (hd : 2 ≤ d) :
    runAll keyString ⟨d, stk⟩ (eventsE es) = ([], ⟨d, stk⟩) := by
  cases es
  case nil => simp [eventsE, runAll]
  case cons v rest =>
    have hev : endValue d = d := by simp [endValue]; omega
    simp only [eventsE, runAll_append]
    rw [runAll_suppressed keyString v d stk (by omega), hev,
      runAllE_suppressed keyString rest d stk hd]
    simp
end

/-! ### The forwarded stream is the stream of the filtered document -/

theorem countM_filterM (keyString : List Nat) (ms : JMembers) :
    countM (filterM keyString ms) = keptM keyString ms := by
  cases ms
  case nil => simp [filterM, countM, keptM]
  case cons k c v rest =>
    by_cases hk : k = keyString
    · simp [filterM, countM, keptM, hk, countM_filterM keyString rest]
    · simp [filterM, countM, keptM, hk, countM_filterM keyString rest]
      omega

theorem countE_filterE (keyString : List Nat) (es : JElems) :
    countE (filterE keyString es) = countE es := by
  cases es
  case nil => rfl
  case cons v rest => simp [filterE, countE, countE_filterE keyString rest]

mutual
/-- Main characterisation, value form: from a non-suppressing state the
handler forwards exactly the event stream of the filtered document and
returns to the initial state. -/
theorem runAll_filters (keyString : List Nat) (v : JValue) (stk : List Nat) :
    runAll keyString ⟨0, stk⟩ (events v) =
      (events (filterJ keyString v), ⟨0, stk⟩) := by
  cases v
  case Obj ms =>
    simp [events, runAll, handle, runAll_append,
      runAllM_filters keyString ms 0 stk, endValue, filterJ,
      countM_filterM keyString ms]
  case Arr es =>
    simp [events, runAll, handle, runAll_append,
      runAllE_filters keyString es stk, endValue, filterJ,
      countE_filterE keyString es]
  all_goals simp [events, runAll, handle, endValue, filterJ]

/-- Main characterisation, member-list form: with the enclosing object's
counter `c` on top of the stack, processing the members forwards the
filtered members and adds the number of kept members to the counter. -/
theorem runAllM_filters (keyString : List Nat) (ms : JMembers) (c : Nat)
    (stk : List Nat) :
    runAll keyString ⟨0, c :: stk⟩ (eventsM ms) =
      (eventsM (filterM keyString ms), ⟨0, (c + keptM keyString ms) :: stk⟩) := by
  cases ms
  case nil => simp [eventsM, runAll, filterM, keptM]
  case cons k cp v rest =>
    by_cases hk : k = keyString
    · simp [eventsM, runAll, handle, hk, runAll_append,
        runAll_suppressed keyString v 1 (c :: stk) le_rfl, endValue,
        runAllM_filters keyString rest c stk, filterM, keptM]
    · simp [eventsM, runAll, handle, hk, runAll_append, incTop,
        runAll_filters keyString v ((c + 1) :: stk),
        runAllM_filters keyString rest (c + 1) stk, filterM, keptM,
        Nat.add_assoc]

/-- Main characterisation, element-list form. -/
theorem runAllE_filters (keyString : List Nat) (es : JElems) (stk : List Nat) :
    runAll keyString ⟨0, stk⟩ (eventsE es) =
      (eventsE (filterE keyString es), ⟨0, stk⟩) := by
  cases es
  case nil => simp [eventsE, runAll, filterE]
  case cons v rest =>
    simp [eventsE, runAll_append, runAll_filters keyString v stk,
      runAllE_filters keyString rest stk, filterE]
end

/-! ### Documents without the filter key are left intact -/

mutual
theorem filterJ_of_not_hasKey (keyString : List Nat) (v : JValue)
    (h : hasKey keyString v = false) : filterJ keyString v = v := by
  cases v
  case Obj ms =>
    simp only [hasKey] at h
    simp [filterJ, filterM_of_not_hasKeyM keyString ms h]
  case Arr es =>
    simp only [hasKey] at h
    simp [filterJ, filterE_of_not_hasKeyE keyString es h]
  all_goals rfl

theorem filterM_of_not_hasKeyM (keyString : List Nat) (ms : JMembers)
    (h : hasKeyM keyString ms = false) : filterM keyString ms = ms := by
  cases ms
  case nil => rfl
  case cons k c v rest =>
    simp only [hasKeyM, Bool.or_eq_false_iff, decide_eq_false_iff_not] at h
    simp [filterM, h.1.1, filterJ_of_not_hasKey keyString v h.1.2,
      filterM_of_not_hasKeyM keyString rest h.2]

theorem filterE_of_not_hasKeyE (keyString : List Nat) (es : JElems)
    (h : hasKeyE keyString es = false) : filterE keyString es = es := by
  cases es
  case nil => rfl
  case cons v rest =>
    simp only [hasKeyE, Bool.or_eq_false_iff] at h
    simp [filterE, filterJ_of_not_hasKey keyString v h.1,
      filterE_of_not_hasKeyE keyString rest h.2]
end

/-! ### Counting keys at the top nesting level of a stream -/

mutual
/-- The events of one value contribute no depth-0 key: every key inside a
value sits inside at least one container opened within the value. -/
theorem topKeys_events (v : JValue) (d : Nat) (rest : List Event) :
    topKeys d (events v ++ rest) = topKeys d rest := by
  cases v
  case Obj ms =>
    simp [events, topKeys, topKeysM_events ms (d + 1)
      (Event.EndObject (countM ms) :: rest) (by omega)]
  case Arr es =>
    simp [events, topKeys, topKeysE_events es (d + 1)
      (Event.EndArray (countE es) :: rest)]
  all_goals simp [events, topKeys]

/-- At depth ≥ 1 a member list contributes no counted key. -/
theorem topKeysM_events (ms : JMembers) (d : Nat) (rest : List Event)
    (hd : 1 ≤ d) :
    topKeys d (eventsM ms ++ rest) = topKeys d rest := by
  cases ms
  case nil => simp [eventsM]
  case cons k c v rest2 =>
    have hd0 : ¬d = 0 := by omega
    simp [eventsM, topKeys, hd0, topKeys_events v d (eventsM rest2 ++ rest),
      topKeysM_events rest2 d rest hd]

/-- An element list contributes no counted key at any depth. -/
theorem topKeysE_events (es : JElems) (d : Nat) (rest : List Event) :
    topKeys d (eventsE es ++ rest) = topKeys d rest := by
  cases es
  case nil => simp [eventsE]
  case cons v rest2 =>
    simp [eventsE, topKeys_events v d (eventsE rest2 ++ rest),
      topKeysE_events rest2 d rest]
end

/-- At depth 0 a member list contributes exactly one counted key per
member. -/
theorem topKeys_eventsM_zero (ms : JMembers) (rest : List Event) :
    topKeys 0 (eventsM ms ++ rest) = countM ms + topKeys 0 rest := by
  cases ms
  case nil => simp [eventsM, countM]
  case cons k c v rest2 =>
    simp [eventsM, topKeys, countM, topKeys_events v 0 (eventsM rest2 ++ rest),
      topKeys_eventsM_zero rest2 rest]
    omega

/-! ### The instrumented run: stack size vs. open forwarded objects -/

theorem invRun_append (keyString : List Nat) (n : Nat) (s : FKState)
    (a b : List Event) :
    invRun keyString n s (a ++ b) =
      ((invRun keyString n s a).1 &&
          (invRun keyString (invRun keyString n s a).2.1
            (invRun keyString n s a).2.2 b).1,
        (invRun keyString (invRun keyString n s a).2.1
          (invRun keyString n s a).2.2 b).2) := by
  induction a generalizing n s with
  | nil => simp [invRun]
  | cons e es ih => simp [invRun, ih, Bool.and_assoc]

mutual
/-- Inside a suppressed subtree every step passes the instrumentation:
no unguarded stack access and an unchanged stack/open-object count. -/
theorem invRun_suppressed (keyString : List Nat) (v : JValue) (d n : Nat)
    (stk : List Nat) (hd : 1 ≤ d) (hn : stk.length = n) :
    invRun keyString n ⟨d, stk⟩ (events v) = (true, n, ⟨endValue d, stk⟩) := by
  have h0 : 0 < d := hd
  cases v
  case Obj ms =>
    simp [events, invRun, handle, h0, stepOK, invRun_append,
      invRunM_suppressed keyString ms (d + 1) n stk (by omega) hn, hn,
      endValue]
  case Arr es =>
    simp [events, invRun, handle, h0, stepOK, invRun_append,
      invRunE_suppressed keyString es (d + 1) n stk (by omega) hn, hn,
      endValue]
  all_goals simp [events, invRun, handle, h0, stepOK, hn]

/-- Member lists inside a suppressed subtree (depth ≥ 2). -/
theorem invRunM_suppressed (keyString : List Nat) (ms : JMembers) (d n : Nat)
    (stk : List Nat) (hd : 2 ≤ d) (hn : stk.length = n) :
    invRun keyString n ⟨d, stk⟩ (eventsM ms) = (true, n, ⟨d, stk⟩) := by
  have h0 : 0 < d := by omega
  cases ms
  case nil => simp [eventsM, invRun]
  case cons k c v rest =>
    have hev : endValue d = d := by simp [endValue]; omega
    simp [eventsM, invRun, handle, h0, stepOK, invRun_append, hn,
      invRun_suppressed keyString v d n stk (by omega) hn, hev,
      invRunM_suppressed keyString rest d n stk hd hn]

/-- Element lists inside a suppressed subtree (depth ≥ 2). -/
theorem invRunE_suppressed (keyString : List Nat) (es : JElems) (d n : Nat)
    (stk : List Nat) (hd : 2 ≤ d) (hn : stk.length = n) :
    invRun keyString n ⟨d, stk⟩ (eventsE es) = (true, n, ⟨d, stk⟩) := by
  cases es
  case nil => simp [eventsE, invRun]
  case cons v rest =>
    have hev : endValue d = d := by simp [endValue]; omega
    simp [eventsE, invRun_append,
      invRun_suppressed keyString v d n stk (by omega) hn, hev,
      invRunE_suppressed keyString rest d n stk hd hn]
end

mutual
/-- The instrumentation passes on the events of any value processed from a
non-suppressing state whose stack size matches the open-object count. -/
theorem invRun_value (keyString : List Nat) (v : JValue) (n : Nat)
    (stk : List Nat) (hn : stk.length = n) :
    invRun keyString n ⟨0, stk⟩ (events v) = (true, n, ⟨0, stk⟩) := by
  cases v
  case Obj ms =>
    simp [events, invRun, handle, stepOK, invRun_append, hn, endValue,
      invRunM_members keyString ms (n + 1) 0 stk (by simp [hn])]
  case Arr es =>
    simp [events, invRun, handle, stepOK, invRun_append, hn, endValue,
      invRunE_elems keyString es n stk hn]
  all_goals simp [events, invRun, handle, stepOK, hn, endValue]

/-- The instrumentation passes on a member list processed with the
enclosing object's counter on top of the stack. -/
theorem invRunM_members (keyString : List Nat) (ms : JMembers) (n c : Nat)
    (stk : List Nat) (hn : (c :: stk).length = n) :
    invRun keyString n ⟨0, c :: stk⟩ (eventsM ms) =
      (true, n, ⟨0, (c + keptM keyString ms) :: stk⟩) := by
  cases ms
  case nil => simp [eventsM, invRun, keptM]
  case cons k cp v rest =>
    by_cases hk : k = keyString
    · simp [eventsM, invRun, handle, hk, stepOK, invRun_append, hn, endValue,
        invRun_suppressed keyString v 1 n (c :: stk) le_rfl hn,
        invRunM_members keyString rest n c stk hn, keptM]
    · have hn' : stk.length + 1 = n := by simpa using hn
      simp [eventsM, invRun, handle, hk, stepOK, invRun_append, incTop,
        endValue, hn, hn',
        invRun_value keyString v n ((c + 1) :: stk) (by simpa using hn),
        invRunM_members keyString rest n (c + 1) stk (by simpa using hn),
        keptM, Nat.add_assoc]

/-- The instrumentation passes on an element list. -/
theorem invRunE_elems (keyString : List Nat) (es : JElems) (n : Nat)
    (stk : List Nat) (hn : stk.length = n) :
    invRun keyString n ⟨0, stk⟩ (eventsE es) = (true, n, ⟨0, stk⟩) := by
  cases es
  case nil => simp [eventsE, invRun]
  case cons v rest =>
    simp [eventsE, invRun_append, invRun_value keyString v n stk hn,
      invRunE_elems keyString rest n stk hn]
end

/-! ### Claims -/

/-- C1: for every well-formed event stream (the stream of a document)
containing zero `Key` events whose bytes equal the filter key, the sequence
of events the handler forwards downstream is exactly its input sequence —
member and element counts included — and the handler ends in its initial
state. -/
theorem no_match_identity (keyString : List Nat) (v : JValue)
    (h : hasKey keyString v = false) :
    runAll keyString ⟨0, []⟩ (events v) = (events v, ⟨0, []⟩) := by
  have h2 := runAll_filters keyString v []
  rw [filterJ_of_not_hasKey keyString v h] at h2
  exact h2

theorem no_match_identity_witness :
    runAll coordinatesKey ⟨0, []⟩
        (events (JValue.Obj (JMembers.cons [97] true (JValue.Uint 1) JMembers.nil))) =
      (events (JValue.Obj (JMembers.cons [97] true (JValue.Uint 1) JMembers.nil)),
        ⟨0, []⟩) :=
  no_match_identity coordinatesKey
    (JValue.Obj (JMembers.cons [97] true (JValue.Uint 1) JMembers.nil)) (by decide)

/-- C2: whenever the handler forwards an `EndObject`, the member count it
passes downstream equals the number of `Key` events it forwarded while that
object was open (the keys at nesting depth 0 of the forwarded member
stream), and this holds for every upstream member count — the upstream
count is ignored.  `⟨0, 0 :: stk⟩` is the handler state right after the
object's forwarded `StartObject` pushed a fresh counter. -/
theorem endObject_count_is_forwarded_keys (keyString : List Nat)
    (ms : JMembers) (stk : List Nat) (upstream : Nat) :
    (handle keyString (fun _ => true)
        (runAll keyString ⟨0, 0 :: stk⟩ (eventsM ms)).2
        (Event.EndObject upstream)).emitted =
      some (Event.EndObject
        (topKeys 0 (runAll keyString ⟨0, 0 :: stk⟩ (eventsM ms)).1)) := by
  have ht : topKeys 0 (eventsM (filterM keyString ms)) =
      countM (filterM keyString ms) := by
    have h := topKeys_eventsM_zero (filterM keyString ms) []
    simpa [topKeys] using h
  rw [runAllM_filters keyString ms 0 stk]
  simp [handle, ht, countM_filterM]

/-- C3: the handler makes a downstream call only when the suppression depth
is 0; no event is ever forwarded from inside a suppressed subtree. -/
theorem forward_implies_depth_zero (keyString : List Nat) (out : Event → Bool)
    (s : FKState) (e : Event)
    (h : (handle keyString out s e).emitted.isSome = true) :
    s.filterValueDepth = 0 := by
  by_cases h0 : 0 < s.filterValueDepth
  · exfalso
    cases e <;> simp [handle, h0] at h
  · omega

theorem forward_implies_depth_zero_witness :
    (FKState.mk 0 []).filterValueDepth = 0 :=
  forward_implies_depth_zero [] (fun _ => true) ⟨0, []⟩ Event.Null (by decide)

/-- C4: after any value-completing event (a scalar, `EndObject` or
`EndArray`): writing `d` for the depth after the event's own decrement
(container ends decrement it while suppressing, scalars never change it),
the resulting depth is 0 when `d = 1` and `d` otherwise — for suppressed
and forwarded events alike, whatever the downstream response. -/
theorem end_of_value_rule_holds (keyString : List Nat) (out : Event → Bool)
    (s : FKState) (e : Event) (h : completesValue e = true) :
    (handle keyString out s e).state.filterValueDepth =
      endValue (if isContainerEnd e then s.filterValueDepth - 1
        else s.filterValueDepth) := by
  obtain ⟨d, stk⟩ := s
  by_cases h0 : 0 < d
  · cases e <;> simp [completesValue] at h <;>
      simp [handle, isContainerEnd, h0]
  · have hd : d = 0 := by omega
    subst hd
    cases e <;> simp [completesValue] at h <;>
      simp [handle, isContainerEnd, endValue] <;> split_ifs <;> rfl

theorem end_of_value_rule_holds_witness :
    (handle [] (fun _ => true) ⟨1, [5]⟩ Event.Null).state.filterValueDepth =
      endValue (if isContainerEnd Event.Null then
          (FKState.mk 1 [5]).filterValueDepth - 1
        else (FKState.mk 1 [5]).filterValueDepth) :=
  end_of_value_rule_holds [] (fun _ => true) ⟨1, [5]⟩ Event.Null (by decide)

/-- C5: the `Key` dispatch: while suppressing the key is swallowed with no
state change and with a result independent of the key's bytes; otherwise a
byte-exact match sets the depth to 1 without forwarding, and a non-match
increments the top member counter and forwards the key. -/
theorem key_dispatch (keyString : List Nat) (out : Event → Bool) (s : FKState)
    (str : List Nat) (c : Bool) :
    (0 < s.filterValueDepth →
        handle keyString out s (.Key str c) = ⟨true, none, s⟩) ∧
    (s.filterValueDepth = 0 → str = keyString →
        handle keyString out s (.Key str c) =
          ⟨true, none, { s with filterValueDepth := 1 }⟩) ∧
    (s.filterValueDepth = 0 → str ≠ keyString →
        handle keyString out s (.Key str c) =
          ⟨out (.Key str c), some (.Key str c),
            { s with filteredKeyCount := incTop s.filteredKeyCount }⟩) := by
  refine ⟨fun h0 => ?_, fun h0 hs => ?_, fun h0 hs => ?_⟩
  · simp [handle, h0]
  · simp [handle, h0, hs]
  · simp [handle, h0, hs]

theorem key_dispatch_witness :
    handle [5] (fun _ => true) ⟨1, []⟩ (Event.Key [7] true) =
      ⟨true, none, ⟨1, []⟩⟩ ∧
    handle [5] (fun _ => true) ⟨0, []⟩ (Event.Key [5] true) =
      ⟨true, none, ⟨1, []⟩⟩ ∧
    handle [5] (fun _ => true) ⟨0, [3]⟩ (Event.Key [7] true) =
      ⟨true, some (Event.Key [7] true), ⟨0, [4]⟩⟩ := by
  refine ⟨(key_dispatch [5] (fun _ => true) ⟨1, []⟩ [7] true).1 (by decide), ?_, ?_⟩
  · have h := (key_dispatch [5] (fun _ => true) ⟨0, []⟩ [5] true).2.1 rfl rfl
    simpa using h
  · have h := (key_dispatch [5] (fun _ => true) ⟨0, [3]⟩ [7] true).2.2 rfl (by decide)
    simpa [incTop] using h

/-- C6: filtering the stream of
`{"a":{"coordinates":{"x":1,"y":[1,2,{"coordinates":"deep"}]},"b":2}}`
with key "coordinates" forwards exactly the stream of `{"a":{"b":2}}`; in
particular the inner object's forwarded member count is 1 (the second
conjunct spells the forwarded stream out), and the occurrence of
"coordinates" inside the suppressed subtree triggers nothing. -/
theorem nested_match_example :
    runAll coordinatesKey ⟨0, []⟩ (events nestedDoc) =
      (events nestedDocFiltered, ⟨0, []⟩) ∧
    events nestedDocFiltered =
      [Event.StartObject, Event.Key [97] true, Event.StartObject,
        Event.Key [98] true, Event.Uint 2, Event.EndObject 1,
        Event.EndObject 1] := by
  decide

/-- C7: when a forwarded call is answered `false`, the handler returns
`false` for that event and its state is exactly the state a successful
forward would leave (mutations made before the call, such as the `pop` in
`EndObject`, are not undone); and a run aborted by a rejection is unchanged
by appending further input — no further event is forwarded. -/
theorem consumer_rejection_aborts :
    (∀ (keyString : List Nat) (out : Event → Bool) (s : FKState) (e e' : Event),
        (handle keyString out s e).emitted = some e' → out e' = false →
          (handle keyString out s e).ret = false ∧
          (handle keyString out s e).state =
            (handle keyString (fun _ => true) s e).state) ∧
    (∀ (keyString : List Nat) (consume : Event → Bool) (s : FKState)
        (es1 es2 : List Event),
        (runCons keyString consume s es1).1 = false →
          runCons keyString consume s (es1 ++ es2) =
            runCons keyString consume s es1) := by
  constructor
  · intro keyString out s e e' h he
    obtain ⟨d, stk⟩ := s
    by_cases h0 : 0 < d
    · exfalso
      cases e <;> simp [handle, h0] at h
    · have hd : d = 0 := by omega
      subst hd
      cases e <;>
        (simp only [handle] at h ⊢
         split_ifs at h ⊢ <;> simp_all [endValue, incTop])
  · intro keyString consume s es1 es2
    induction es1 generalizing s with
    | nil => intro h; simp [runCons] at h
    | cons e es ih =>
      intro h
      by_cases hr : (handle keyString consume s e).ret
      · simp only [runCons, hr, if_true, List.cons_append, List.append_eq] at h ⊢
        rw [ih _ h]
      · simp only [runCons, hr, if_false, List.cons_append]
        simp [hr]

theorem consumer_rejection_aborts_witness :
    ((handle [] (fun _ => false) ⟨0, []⟩ Event.Null).ret = false ∧
      (handle [] (fun _ => false) ⟨0, []⟩ Event.Null).state =
        (handle [] (fun _ => true) ⟨0, []⟩ Event.Null).state) ∧
    runCons [] (fun _ => false) ⟨0, []⟩ ([Event.Null] ++ [Event.Bool true]) =
      runCons [] (fun _ => false) ⟨0, []⟩ [Event.Null] :=
  ⟨consumer_rejection_aborts.1 [] (fun _ => false) ⟨0, []⟩ Event.Null Event.Null
      (by decide) (by decide),
    consumer_rejection_aborts.2 [] (fun _ => false) ⟨0, []⟩ [Event.Null]
      [Event.Bool true] (by decide)⟩

/-- C8: on every well-formed stream, after each event the member-count
stack has exactly one entry per currently-open forwarded object, and the
unguarded `top()`/`pop()` accesses in the non-suppressing `Key` and
`EndObject` branches always see a non-empty stack: the instrumented run
accepts the whole stream of every document, for every filter key. -/
theorem stack_matches_open_objects (keyString : List Nat) (v : JValue) :
    (invRun keyString 0 ⟨0, []⟩ (events v)).1 = true := by
  simp [invRun_value keyString v 0 [] rfl]

/-- C10: the filter key `main` applies is the fixed 11-byte string
"coordinates", identical for every command line; filtering in `main`'s pass
is filtering with "coordinates". -/
theorem filter_key_hardcoded (argv argv2 : List (List Nat)) (v : JValue) :
    usedFilterKey argv = [99, 111, 111, 114, 100, 105, 110, 97, 116, 101, 115] ∧
    (usedFilterKey argv).length = 11 ∧
    usedFilterKey argv = usedFilterKey argv2 ∧
    runAll (usedFilterKey argv) ⟨0, []⟩ (events v) =
      runAll coordinatesKey ⟨0, []⟩ (events v) :=
  ⟨rfl, rfl, rfl, rfl⟩

/-! ### C9: CLI exit codes -/

theorem checkFeature_pass_iff (f : JValue) :
    checkFeature f = FeatureCheck.pass ↔ goodFeature f = true := by
  unfold checkFeature goodFeature
  by_cases hf : isObj f = true
  · simp only [hf, if_true]
    cases hg : getMember f geometryBytes
    · simp [hg]
    · next g =>
      simp only [hg]
      by_cases hgo : isObj g = true
      · simp only [hgo, if_true]
        cases ht : getMember g typeBytes
        · simp [ht]
        · next t =>
          simp only [ht]
          by_cases hts : isStringVal t = true
          · simp only [hts, if_true]
            cases hp : getMember f propertiesBytes
            · simp [hp, hf, hgo, hts]
            · next p =>
              simp only [hp]
              by_cases hpo : isObj p = true <;> simp [hpo, hf, hgo, hts]
          · simp [hts, hf, hgo]
      · simp [hgo, hf]
  · simp [hf]

theorem checkFeatures_pass_iff (es : JElems) :
    checkFeatures es = FeatureCheck.pass ↔ goodFeatures es = true := by
  cases es
  case nil => simp [checkFeatures, goodFeatures]
  case cons f rest =>
    have hiff := checkFeature_pass_iff f
    cases hc : checkFeature f
    case pass =>
      simp [checkFeatures, goodFeatures, hc, hiff.mp hc,
        checkFeatures_pass_iff rest]
    case exit1 =>
      have hgf : goodFeature f = false := by
        cases hgf2 : goodFeature f
        · rfl
        · exact absurd (hiff.mpr hgf2) (by simp [hc])
      simp [checkFeatures, goodFeatures, hc, hgf]
    case notDefined =>
      have hgf : goodFeature f = false := by
        cases hgf2 : goodFeature f
        · rfl
        · exact absurd (hiff.mpr hgf2) (by simp [hc])
      simp [checkFeatures, goodFeatures, hc, hgf]

/-- C9 counterexample: with the correct argument count, an opened file and
a successfully parsed `{"features":[{}]}`, the program exits 1 — the
`ASSERT(feature.HasMember("geometry"))` macro fails — not 0 as the claim's
"in every other case" requires. -/
theorem cli_exit_zero_counterexample :
    mainModel 2 true (ParseOutcome.success
        (JValue.Obj (JMembers.cons featuresBytes true
          (JValue.Arr (JElems.cons (JValue.Obj JMembers.nil) JElems.nil))
          JMembers.nil))) = some 1 ∧
    ¬ mainModel 2 true (ParseOutcome.success
        (JValue.Obj (JMembers.cons featuresBytes true
          (JValue.Arr (JElems.cons (JValue.Obj JMembers.nil) JElems.nil))
          JMembers.nil))) = some 0 := by
  decide

/-- C9 amended: exit 1 on a wrong argument count, an unopenable file, or a
parse failure; on a successful parse the program exits 0 (after printing
the summary) exactly when the document carries a `features` array whose
features all pass the stats-loop assertions — otherwise it exits 1 via an
in-file `ASSERT`, or hits a RapidJSON precondition assert (modelled as
undefined, `none`). -/
theorem cli_exit_codes (argc : Nat) (openOk : Bool) (pr : ParseOutcome) :
    (argc ≠ 2 → mainModel argc openOk pr = some 1) ∧
    (argc = 2 → openOk = false → mainModel argc openOk pr = some 1) ∧
    (∀ off code, pr = ParseOutcome.failure off code → argc = 2 →
        openOk = true → mainModel argc openOk pr = some 1) ∧
    (∀ doc, pr = ParseOutcome.success doc → argc = 2 → openOk = true →
        (mainModel argc openOk pr = some 0 ↔
          ∃ elems, getMember doc featuresBytes = some (JValue.Arr elems) ∧
            goodFeatures elems = true)) := by
  refine ⟨fun h => by simp [mainModel, h],
    fun h2 ho => by simp [mainModel, h2, ho],
    fun off code hpr h2 ho => by simp [mainModel, h2, ho, hpr],
    fun doc hpr h2 ho => ?_⟩
  subst hpr h2 ho
  cases hf : getMember doc featuresBytes
  case none => simp [mainModel, hf]
  case some fs =>
    cases fs <;> simp [mainModel, hf]
    case Arr elems =>
      cases hc : checkFeatures elems
      case pass => simp [hc, (checkFeatures_pass_iff elems).mp hc]
      case exit1 =>
        have hge : goodFeatures elems = false := by
          cases hg2 : goodFeatures elems
          · rfl
          · exact absurd ((checkFeatures_pass_iff elems).mpr hg2) (by simp [hc])
        simp [hc, hge]
      case notDefined =>
        have hge : goodFeatures elems = false := by
          cases hg2 : goodFeatures elems
          · rfl
          · exact absurd ((checkFeatures_pass_iff elems).mpr hg2) (by simp [hc])
        simp [hc, hge]

theorem cli_exit_codes_witness :
    mainModel 3 true (ParseOutcome.failure 0 0) = some 1 ∧
    mainModel 2 false (ParseOutcome.failure 0 0) = some 1 ∧
    mainModel 2 true (ParseOutcome.failure 5 7) = some 1 ∧
    mainModel 2 true (ParseOutcome.success
      (JValue.Obj (JMembers.cons featuresBytes true (JValue.Arr JElems.nil)
        JMembers.nil))) = some 0 :=
  ⟨(cli_exit_codes 3 true (ParseOutcome.failure 0 0)).1 (by decide),
    (cli_exit_codes 2 false (ParseOutcome.failure 0 0)).2.1 rfl rfl,
    (cli_exit_codes 2 true (ParseOutcome.failure 5 7)).2.2.1 5 7 rfl rfl rfl,
    ((cli_exit_codes 2 true (ParseOutcome.success
        (JValue.Obj (JMembers.cons featuresBytes true (JValue.Arr JElems.nil)
          JMembers.nil)))).2.2.2 _ rfl rfl rfl).mpr
      ⟨JElems.nil, by decide, rfl⟩⟩

end GQ
